import Mathlib

/-!
Shallow embedding of the `codicefiscale` library (src/src/lib.rs, src/src/utils.rs).
Rust strings are modelled as `List Char`; `unwrap` panics are modelled by `Option`.
-/

namespace CodiceFiscale

/-! ### Static lookup tables (lib.rs, lazy_static block) -/

/-- Embeds `ALPHABET_VEC` from lib.rs: the 26 uppercase letters in order. -/
def ALPHABET_VEC : List Char :=
  ['A', 'B', 'C', 'D', 'E', 'F', 'G', 'H', 'I', 'J', 'K', 'L', 'M', 'N', 'O', 'P', 'Q', 'R',
   'S', 'T', 'U', 'V', 'W', 'X', 'Y', 'Z']

/-- Embeds `ODD_LOOKUP_TABLE` from lib.rs: a `HashMap<char, u32>`; `get` returns `none` for
keys not present. -/
def ODD_LOOKUP_TABLE (c : Char) : Option Nat :=
  match c with
  | '0' => some 1
  | '1' => some 0
  | '2' => some 5
  | '3' => some 7
  | '4' => some 9
  | '5' => some 13
  | '6' => some 15
  | '7' => some 17
  | '8' => some 19
  | '9' => some 21
  | 'A' => some 1
  | 'B' => some 0
  | 'C' => some 5
  | 'D' => some 7
  | 'E' => some 9
  | 'F' => some 13
  | 'G' => some 15
  | 'H' => some 17
  | 'I' => some 19
  | 'J' => some 21
  | 'K' => some 2
  | 'L' => some 4
  | 'M' => some 18
  | 'N' => some 20
  | 'O' => some 11
  | 'P' => some 3
  | 'Q' => some 6
  | 'R' => some 8
  | 'S' => some 12
  | 'T' => some 14
  | 'U' => some 16
  | 'V' => some 10
  | 'W' => some 22
  | 'X' => some 25
  | 'Y' => some 24
  | 'Z' => some 23
  | _ => none

/-- Embeds `HOMOCODIC_LOOKUP_TABLE` from lib.rs: a `HashMap<u32, char>` on keys 0–9. -/
def HOMOCODIC_LOOKUP_TABLE (n : Nat) : Option Char :=
  match n with
  | 0 => some 'L'
  | 1 => some 'M'
  | 2 => some 'N'
  | 3 => some 'P'
  | 4 => some 'Q'
  | 5 => some 'R'
  | 6 => some 'S'
  | 7 => some 'T'
  | 8 => some 'U'
  | 9 => some 'V'
  | _ => none

/-! ### Character primitives (Rust `char` methods and utils.rs) -/

/-- Rust `char::to_ascii_lowercase`. -/
def to_ascii_lowercase (c : Char) : Char :=
  if 'A' ≤ c ∧ c ≤ 'Z' then Char.ofNat (c.toNat + 32) else c

/-- Rust `char::to_ascii_uppercase`. -/
def to_ascii_uppercase (c : Char) : Char :=
  if 'a' ≤ c ∧ c ≤ 'z' then Char.ofNat (c.toNat - 32) else c

/-- Rust `char::is_ascii_digit`. -/
def is_ascii_digit (c : Char) : Bool :=
  '0' ≤ c ∧ c ≤ '9'

/-- Rust `char::to_digit(10)` on an ASCII digit (the only use sites guard with
`is_ascii_digit`, where the radix-10 conversion is the distance from '0'). -/
def to_digit (c : Char) : Nat :=
  c.toNat - '0'.toNat

/-- Embeds `utils::is_vowel`: lowercase the char and test membership in a,e,i,o,u. -/
def is_vowel (c : Char) : Bool :=
  let VOWELS : List Char := ['a', 'e', 'i', 'o', 'u']
  VOWELS.contains (to_ascii_lowercase c)

/-- Embeds `utils::is_consonant`: the negation of `is_vowel`. -/
def is_consonant (c : Char) : Bool :=
  !is_vowel c

/-! ### ChecksumEngine (lib.rs `get_control_character` and its two lookup helpers) -/

/-- The characters the source calls `even_characters`: result of
`char_indices().filter(|c| c.0 % 2 == 1)` (characters at odd 0-based index). -/
def even_characters (l : List Char) : List Char :=
  (l.enum.filter (fun p => p.1 % 2 == 1)).map Prod.snd

/-- The characters the source calls `odd_characters`: result of
`char_indices().filter(|c| c.0 % 2 == 0)` (characters at even 0-based index). -/
def odd_characters (l : List Char) : List Char :=
  (l.enum.filter (fun p => p.1 % 2 == 0)).map Prod.snd

/-- Rust `ALPHABET_VEC.binary_search(&c)`: the vector is sorted and duplicate-free,
so a successful search returns the unique index of `c`; a miss is an `Err`,
which the caller `unwrap`s (modelled as `none`). -/
def alphabet_search (c : Char) : Option Nat :=
  if ALPHABET_VEC.contains c then some (ALPHABET_VEC.indexOf c) else none

/-- The per-character closure of `even_characters_lookup`: uppercase, then parse a
digit or search the alphabet (whose failed `unwrap` is `none`). -/
def even_character_value (c : Char) : Option Nat :=
  let u := to_ascii_uppercase c
  if is_ascii_digit u then some (to_digit u) else alphabet_search u

/-- Embeds `even_characters_lookup` from lib.rs: map `even_character_value` over the
characters; a failed `unwrap` is `none`. -/
def even_characters_lookup : List Char → Option (List Nat)
  | [] => some []
  | c :: cs => do
      let v ← even_character_value c
      let rest ← even_characters_lookup cs
      some (v :: rest)

/-- Embeds `odd_characters_lookup` from lib.rs: uppercase each char and look it up in
`ODD_LOOKUP_TABLE`; a failed `unwrap` is `none`. -/
def odd_characters_lookup : List Char → Option (List Nat)
  | [] => some []
  | c :: cs => do
      let v ← ODD_LOOKUP_TABLE (to_ascii_uppercase c)
      let rest ← odd_characters_lookup cs
      some (v :: rest)

/-- Embeds `get_control_character` from lib.rs: sum the looked-up values of the two parity
classes, reduce mod 26 and index `ALPHABET_VEC`. -/
def get_control_character (preliminary_code : List Char) : Option Char := do
  let even_sum := (← even_characters_lookup (even_characters preliminary_code)).sum
  let odd_sum := (← odd_characters_lookup (odd_characters preliminary_code)).sum
  ALPHABET_VEC.get? ((even_sum + odd_sum) % 26)

/-! ### NameEncoder (lib.rs `extract_surname_letters`, `extract_name_letters`) -/

/-- Rust slice `chunks(3)`: split into consecutive chunks of length 3 (last may be
shorter); empty slice yields no chunks. -/
def chunks3 : List Char → List (List Char)
  | [] => []
  | [a] => [[a]]
  | [a, b] => [[a, b]]
  | a :: b :: c :: rest => [a, b, c] :: chunks3 rest

/-- Rust `format!("{:X<3}", s)`: left-align `s` in a field of width 3, filling
with 'X'. -/
def pad_x3 (l : List Char) : List Char :=
  l ++ List.replicate (3 - l.length) 'X'

/-- Embeds `extract_surname_letters` from lib.rs: consonants then vowels, first chunk of 3
(`first().unwrap()` panics on an empty list, modelled as `none`), pad with 'X' to
width 3, uppercase. -/
def extract_surname_letters (name : List Char) : Option (List Char) := do
  let name_consonants := name.filter is_consonant
  let name_vowels := name.filter is_vowel
  let name_code := name_consonants ++ name_vowels
  let first ← (chunks3 name_code).head?
  some ((pad_x3 first).map to_ascii_uppercase)

/-- Embeds `extract_name_letters` from lib.rs: like the surname when there are at most 3
consonants; otherwise take consonants 0, 2, 3. -/
def extract_name_letters (name : List Char) : Option (List Char) := do
  let name_consonants := name.filter is_consonant
  let name_vowels := name.filter is_vowel
  if name_consonants.length ≤ 3 then
    let name_code := name_consonants ++ name_vowels
    let first ← (chunks3 name_code).head?
    some ((pad_x3 first).map to_ascii_uppercase)
  else
    let c0 ← name_consonants.get? 0
    let c2 ← name_consonants.get? 2
    let c3 ← name_consonants.get? 3
    some ([c0, c2, c3].map to_ascii_uppercase)

/-! ### HomocodicTransformer (lib.rs `generate_homocodic_preliminary_code`,
`generate_homocodic_from_code`) -/

/-- The loop body of `generate_homocodic_preliminary_code`: walk the (already
reversed) characters, substituting digits through `HOMOCODIC_LOOKUP_TABLE` while
the budget is nonzero; the `unwrap` on the table is modelled as `Option`. -/
def homocodic_subst : List Char → Nat → Option (List Char)
  | [], _ => some []
  | c :: rest, substitution_depth =>
      if is_ascii_digit c ∧ substitution_depth ≠ 0 then do
        let nc ← HOMOCODIC_LOOKUP_TABLE (to_digit c)
        let tail ← homocodic_subst rest (substitution_depth - 1)
        some (nc :: tail)
      else do
        let tail ← homocodic_subst rest substitution_depth
        some (c :: tail)

/-- Embeds `generate_homocodic_preliminary_code` from lib.rs: return the input unchanged at
depth 0, otherwise substitute right-to-left and reverse back. -/
def generate_homocodic_preliminary_code (preliminary_code : List Char)
    (substitution_depth : Nat) : Option (List Char) :=
  if substitution_depth = 0 then some preliminary_code
  else (homocodic_subst preliminary_code.reverse substitution_depth).map List.reverse

/-- The first statement of `generate_homocodic_from_code`:
`char_indices().filter(|c| c.0 != 15)` drops the character at index 15. -/
def strip_check (code : List Char) : List Char :=
  (code.enum.filter (fun p => p.1 != 15)).map Prod.snd

/-- Embeds `generate_homocodic_from_code` from lib.rs: drop index 15, substitute, recompute
the control character and append it. -/
def generate_homocodic_from_code (code : List Char) (substitution_depth : Nat) :
    Option (List Char) := do
  let preliminary_code := strip_check code
  let preliminary_code ← generate_homocodic_preliminary_code preliminary_code
      substitution_depth
  let check_code ← get_control_character preliminary_code
  some (preliminary_code ++ [check_code])

/-! ### Data model (models.rs, lib.rs `Sex`, chrono's `NaiveDate` at the interface) -/

/-- Embeds `Sex` from lib.rs. -/
inductive Sex
  | M
  | F

/-- Embeds `models::Nation`: a nation record from the database. -/
structure Nation where
  id : Int
  nation_name : List Char
  nation_code : List Char

/-- Embeds `models::City`: a city record from the database. -/
structure City where
  id : Int
  city_name : List Char
  city_code : List Char

/-- Embeds `chrono::NaiveDate` at the interface of `generate_code`: the code only reads
`year()` (an i32), `month()` and `day()` (u32); calendar validity is the caller's
concern (§6 of the library docs). -/
structure NaiveDate where
  year : Int
  month : Nat
  day : Nat

/-! ### DateLocationEncoder (lib.rs `get_month_letter`, `get_year`, `get_day`) -/

/-- Embeds `MONTH_LETTERS` from `get_month_letter`. -/
def MONTH_LETTERS : List Char :=
  ['A', 'B', 'C', 'D', 'E', 'H', 'L', 'M', 'P', 'R', 'S', 'T']

/-- Embeds `get_month_letter` from lib.rs, composed with the caller's
`Month::try_from(month as u8).unwrap()` (which fails outside 1..=12, modelled as
`none`): index `MONTH_LETTERS` at `month - 1`. -/
def get_month_letter (month : Nat) : Option Char :=
  if 1 ≤ month ∧ month ≤ 12 then MONTH_LETTERS.get? (month - 1) else none

/-- Embeds `get_year` from lib.rs: assert the year string has exactly 4 chars (an assert
failure is a panic, modelled as `none`), then take the slice `[2..4]`. -/
def get_year (year : List Char) : Option (List Char) :=
  if year.length = 4 then some ((year.drop 2).take 2) else none

/-- Embeds `get_day` from lib.rs: the day, plus 40 for females. -/
def get_day (day : Nat) (sex : Sex) : Nat :=
  match sex with
  | Sex.M => day
  | Sex.F => day + 40

/-- The decimal digit character for `n < 10`. -/
def digitChar (n : Nat) : Char :=
  Char.ofNat ('0'.toNat + n)

/-- Recursion core of `nat_to_string`, structural on a fuel argument that the
wrapper makes large enough (`n` only shrinks under division by 10). -/
def nat_to_string_core : Nat → Nat → List Char
  | 0, _ => []
  | fuel + 1, n =>
      if n < 10 then [digitChar n]
      else nat_to_string_core fuel (n / 10) ++ [digitChar (n % 10)]

/-- Rust's `u32` `Display`: standard decimal notation, most significant digit
first. -/
def nat_to_string (n : Nat) : List Char :=
  nat_to_string_core (n + 1) n

/-- Rust's `i32` `Display` (`year().to_string()` in `generate_code`): a minus sign
for negative values, then the decimal digits of the absolute value. -/
def int_to_string (i : Int) : List Char :=
  if i < 0 then '-' :: nat_to_string i.natAbs else nat_to_string i.natAbs

/-- Rust `format!("{day_code:0>2}")`: right-align in a field of width 2, filling
with '0'. -/
def pad_zero2 (l : List Char) : List Char :=
  List.replicate (2 - l.length) '0' ++ l

/-! ### CodeGenerator (lib.rs `generate_code`) -/

/-- Embeds `generate_code` from lib.rs: build the 15-character preliminary code
surname + name + year + month + day + location, then append the control
character. -/
def generate_code (name surname : List Char) (sex : Sex) (birth_nation : Nation)
    (birth_city : City) (birth_date : NaiveDate) : Option (List Char) := do
  let name_code ← extract_name_letters name
  let surname_code ← extract_surname_letters surname
  let year_code ← get_year (int_to_string birth_date.year)
  let month_code ← get_month_letter birth_date.month
  let day_code := get_day birth_date.day sex
  let location_code := if birth_nation.nation_code = ['0', '0', '0', '0'] then
      birth_city.city_code
    else
      birth_nation.nation_code
  let preliminary_code := surname_code ++ name_code ++ year_code ++ [month_code] ++
      pad_zero2 (nat_to_string day_code) ++ location_code
  let check_code ← get_control_character preliminary_code
  some (preliminary_code ++ [check_code])

/-! ### Claim-side definitions, written from the claims' words, to be compared
with the embedding above. -/

/-- The alphabet of 15-character payloads named by the claims: uppercase ASCII
letters and digits. -/
def UPPERCASE_DIGIT_CHARS : List Char :=
  ['0', '1', '2', '3', '4', '5', '6', '7', '8', '9',
   'A', 'B', 'C', 'D', 'E', 'F', 'G', 'H', 'I', 'J', 'K', 'L', 'M',
   'N', 'O', 'P', 'Q', 'R', 'S', 'T', 'U', 'V', 'W', 'X', 'Y', 'Z']

/-- The ten ASCII digit characters. -/
def DIGIT_CHARS : List Char :=
  ['0', '1', '2', '3', '4', '5', '6', '7', '8', '9']

/-- The fixed ODD table as written in C1: digits 0-9 map to
1,0,5,7,9,13,15,17,19,21 and letters A-Z map to
1,0,5,7,9,13,15,17,19,21,2,4,18,20,11,3,6,8,12,14,16,10,22,25,24,23. -/
def claimOddValue (c : Char) : Nat :=
  match c with
  | '0' => 1 | '1' => 0 | '2' => 5 | '3' => 7 | '4' => 9
  | '5' => 13 | '6' => 15 | '7' => 17 | '8' => 19 | '9' => 21
  | 'A' => 1 | 'B' => 0 | 'C' => 5 | 'D' => 7 | 'E' => 9
  | 'F' => 13 | 'G' => 15 | 'H' => 17 | 'I' => 19 | 'J' => 21
  | 'K' => 2 | 'L' => 4 | 'M' => 18 | 'N' => 20 | 'O' => 11
  | 'P' => 3 | 'Q' => 6 | 'R' => 8 | 'S' => 12 | 'T' => 14
  | 'U' => 16 | 'V' => 10 | 'W' => 22 | 'X' => 25 | 'Y' => 24
  | 'Z' => 23
  | _ => 0

/-- The value C1 assigns to a character at odd 0-based index: its parsed digit
value if it is a digit, otherwise its 0-based alphabetical index (A=0 .. Z=25). -/
def claimEvenValue (c : Char) : Nat :=
  if is_ascii_digit c then to_digit c else ALPHABET_VEC.indexOf c

/-- The sum S of C1: over all characters, the ODD-table value at even 0-based
index and the digit-value-or-alphabetical-index at odd 0-based index. -/
def claimChecksumSum (l : List Char) : Nat :=
  (l.enum.map (fun p => if p.1 % 2 = 0 then claimOddValue p.2 else claimEvenValue p.2)).sum

/-- The homocodic substitution table of C10, keyed by the digit character:
0→L, 1→M, 2→N, 3→P, 4→Q, 5→R, 6→S, 7→T, 8→U, 9→V; other characters are
left unchanged. -/
def claimHomocodicLetter (c : Char) : Char :=
  match c with
  | '0' => 'L' | '1' => 'M' | '2' => 'N' | '3' => 'P' | '4' => 'Q'
  | '5' => 'R' | '6' => 'S' | '7' => 'T' | '8' => 'U' | '9' => 'V'
  | _ => c

/-- The surname code as described by C5: consonants in order, then vowels in
order, first 3 characters, right-padded with 'X' to length 3, uppercased. -/
def claimSurnameCode (s : List Char) : List Char :=
  let seq := s.filter is_consonant ++ s.filter is_vowel
  ((seq.take 3) ++ List.replicate (3 - (seq.take 3).length) 'X').map to_ascii_uppercase

/-! ### Proof-layer helpers -/

/-- Every other element of a list, starting with the head iff `b`. The parity
filters of `get_control_character` reduce to this. -/
def everyOther (b : Bool) : List Char → List Char
  | [] => []
  | c :: cs => if b then c :: everyOther (!b) cs else everyOther (!b) cs

/-- The claim sum of C1 rephrased with an alternating flag (`true` on the chars
the ODD table applies to) in place of the index parity. -/
def claimSumB (b : Bool) : List Char → Nat
  | [] => 0
  | c :: cs => (if b then claimOddValue c else claimEvenValue c) + claimSumB (!b) cs

/-- Total companion of `homocodic_subst`: replace digits through
`claimHomocodicLetter` while the budget lasts. -/
def substF : List Char → Nat → List Char
  | [], _ => []
  | c :: rest, depth =>
      if is_ascii_digit c ∧ depth ≠ 0 then
        claimHomocodicLetter c :: substF rest (depth - 1)
      else
        c :: substF rest depth

/-! ## Helper lemmas -/

lemma succ_mod_two_beq (n k : Nat) (hk : k < 2) :
    ((n + 1) % 2 == k) = !(n % 2 == k) := by
  rcases Nat.mod_two_eq_zero_or_one n with h | h <;>
    rcases (show k = 0 ∨ k = 1 by omega) with rfl | rfl <;>
      simp [Nat.add_mod, h]

lemma enumFrom_filter_parity (k : Nat) (hk : k < 2) (l : List Char) :
    ∀ n, ((List.enumFrom n l).filter (fun p => p.1 % 2 == k)).map Prod.snd
      = everyOther (n % 2 == k) l := by
  induction l with
  | nil => intro n; rfl
  | cons c cs ih =>
    intro n
    rw [List.enumFrom_cons, List.filter_cons]
    cases hb : (n % 2 == k) <;>
      simp [hb, everyOther, ih (n + 1), succ_mod_two_beq n k hk]

lemma even_characters_eq (l : List Char) : even_characters l = everyOther false l := by
  have h := enumFrom_filter_parity 1 (by omega) l 0
  simpa [even_characters, List.enum] using h

lemma odd_characters_eq (l : List Char) : odd_characters l = everyOther true l := by
  have h := enumFrom_filter_parity 0 (by omega) l 0
  simpa [odd_characters, List.enum] using h

lemma odd_table_valid : ∀ c ∈ UPPERCASE_DIGIT_CHARS,
    ODD_LOOKUP_TABLE (to_ascii_uppercase c) = some (claimOddValue c) := by decide

lemma even_value_valid : ∀ c ∈ UPPERCASE_DIGIT_CHARS,
    even_character_value c = some (claimEvenValue c) := by decide

lemma lookups_sum : ∀ (l : List Char), (∀ c ∈ l, c ∈ UPPERCASE_DIGIT_CHARS) →
    ∀ b : Bool, ∃ es os,
      even_characters_lookup (everyOther (!b) l) = some es ∧
      odd_characters_lookup (everyOther b l) = some os ∧
      es.sum + os.sum = claimSumB b l := by
  intro l
  induction l with
  | nil => exact fun _ b => ⟨[], [], rfl, rfl, rfl⟩
  | cons c cs ih =>
    intro hv b
    have hc : c ∈ UPPERCASE_DIGIT_CHARS := hv c (List.mem_cons_self c cs)
    have hcs : ∀ x ∈ cs, x ∈ UPPERCASE_DIGIT_CHARS := fun x hx =>
      hv x (List.mem_cons_of_mem c hx)
    obtain ⟨es, os, he, ho, hsum⟩ := ih hcs (!b)
    cases b with
    | true =>
      simp only [Bool.not_true, Bool.not_false] at he ho hsum
      refine ⟨es, claimOddValue c :: os, ?_, ?_, ?_⟩
      · simpa [everyOther] using he
      · simp [everyOther, odd_characters_lookup, odd_table_valid c hc, ho]
      · simp [List.sum_cons, claimSumB]
        omega
    | false =>
      simp only [Bool.not_true, Bool.not_false] at he ho hsum
      refine ⟨claimEvenValue c :: es, os, ?_, ?_, ?_⟩
      · simp [everyOther, even_characters_lookup, even_value_valid c hc, he]
      · simpa [everyOther] using ho
      · simp [List.sum_cons, claimSumB]
        omega

lemma enumFrom_claim_sum (l : List Char) : ∀ n,
    ((List.enumFrom n l).map
        (fun p => if p.1 % 2 = 0 then claimOddValue p.2 else claimEvenValue p.2)).sum
      = claimSumB (n % 2 == 0) l := by
  induction l with
  | nil => intro n; rfl
  | cons c cs ih =>
    intro n
    rw [List.enumFrom_cons, List.map_cons, List.sum_cons, ih (n + 1),
      succ_mod_two_beq n 0 (by omega)]
    rcases Nat.mod_two_eq_zero_or_one n with h | h <;> simp [claimSumB, h]

lemma claimChecksumSum_eq (l : List Char) : claimChecksumSum l = claimSumB true l := by
  have h := enumFrom_claim_sum l 0
  simpa [claimChecksumSum, List.enum] using h

/-! ## Claim C1 -/

/-- C1: for every 15-character string over the uppercase-letter/digit alphabet,
the control character returned by `get_control_character` is the letter at index
S mod 26 of the alphabet A-Z, where S sums the ODD-table value of each character
at even 0-based index and the digit-value-or-alphabetical-index of each character
at odd 0-based index. -/
theorem control_character_claim (l : List Char) (_h15 : l.length = 15)
    (hv : ∀ c ∈ l, c ∈ UPPERCASE_DIGIT_CHARS) :
    get_control_character l = ALPHABET_VEC.get? (claimChecksumSum l % 26) := by
  obtain ⟨es, os, he, ho, hsum⟩ := lookups_sum l hv true
  simp only [Bool.not_true] at he
  simp only [get_control_character, even_characters_eq, odd_characters_eq, he, ho]
  rw [claimChecksumSum_eq, ← hsum]
  rfl

/-- Witness for C1: the concrete payload RSSMRA80D25H501. -/
theorem control_character_claim_witness :
    get_control_character ("RSSMRA80D25H501".toList)
      = ALPHABET_VEC.get? (claimChecksumSum ("RSSMRA80D25H501".toList) % 26) :=
  control_character_claim _ (by decide) (by decide)

/-! ## Homocodic transform: helper lemmas -/

lemma digit_char_mem (c : Char) (h : is_ascii_digit c = true) : c ∈ DIGIT_CHARS := by
  simp only [is_ascii_digit, decide_eq_true_eq] at h
  obtain ⟨h1, h2⟩ := h
  have hn1 : 48 ≤ c.toNat := by
    simpa [Char.le_def, UInt32.le_def, BitVec.le_def] using h1
  have hn2 : c.toNat ≤ 57 := by
    simpa [Char.le_def, UInt32.le_def, BitVec.le_def] using h2
  have hc : c = Char.ofNat c.toNat := (Char.ofNat_toNat c).symm
  set n := c.toNat with hn
  interval_cases n <;> rw [hc] <;> decide

lemma homocodic_table_digit (c : Char) (h : is_ascii_digit c = true) :
    HOMOCODIC_LOOKUP_TABLE (to_digit c) = some (claimHomocodicLetter c) := by
  have hall : ∀ x ∈ DIGIT_CHARS,
      HOMOCODIC_LOOKUP_TABLE (to_digit x) = some (claimHomocodicLetter x) := by decide
  exact hall c (digit_char_mem c h)

lemma homocodic_subst_eq (l : List Char) : ∀ d, homocodic_subst l d = some (substF l d) := by
  induction l with
  | nil => intro d; rfl
  | cons c cs ih =>
    intro d
    rw [homocodic_subst, substF]
    by_cases h : is_ascii_digit c ∧ d ≠ 0
    · rw [if_pos h, if_pos h, homocodic_table_digit c h.1, ih (d - 1)]
      rfl
    · rw [if_neg h, if_neg h, ih d]
      rfl

lemma substF_length (l : List Char) : ∀ d, (substF l d).length = l.length := by
  induction l with
  | nil => intro d; rfl
  | cons c cs ih =>
    intro d
    rw [substF]
    by_cases h : is_ascii_digit c ∧ d ≠ 0 <;>
      simp [h, ih]

lemma substF_get? (l : List Char) : ∀ d i,
    (substF l d).get? i = (l.get? i).map (fun c =>
      if is_ascii_digit c ∧ ((l.take i).filter is_ascii_digit).length < d
      then claimHomocodicLetter c else c) := by
  induction l with
  | nil => intro d i; simp [substF]
  | cons c cs ih =>
    intro d i
    rw [substF]
    by_cases h : is_ascii_digit c ∧ d ≠ 0
    · cases i with
      | zero =>
        simp only [List.get?_cons_zero, Option.map_some']
        rw [if_pos h, List.get?_cons_zero]
        have hcond : is_ascii_digit c = true ∧
            (((c :: cs).take 0).filter is_ascii_digit).length < d := by
          simp only [List.take_zero, List.filter_nil, List.length_nil]
          exact ⟨h.1, by omega⟩
        rw [if_pos hcond]
      | succ j =>
        rw [if_pos h]
        simp only [List.get?_cons_succ]
        rw [ih (d - 1) j]
        rcases hx : cs.get? j with _ | x
        · rfl
        · simp only [Option.map_some']
          congr 1
          have hcount : (((c :: cs).take (j + 1)).filter is_ascii_digit).length
              = (cs.take j |>.filter is_ascii_digit).length + 1 := by
            simp [List.take_succ_cons, List.filter_cons, h.1]
          rw [hcount]
          apply if_congr _ rfl rfl
          constructor
          · rintro ⟨hd, hlt⟩; exact ⟨hd, by omega⟩
          · rintro ⟨hd, hlt⟩; refine ⟨hd, by omega⟩
    · cases i with
      | zero =>
        rw [if_neg h]
        simp only [List.get?_cons_zero, Option.map_some']
        have hcond : ¬ (is_ascii_digit c = true ∧
            (((c :: cs).take 0).filter is_ascii_digit).length < d) := by
          simp only [List.take_zero, List.filter_nil, List.length_nil]
          rintro ⟨hd, hlt⟩
          exact h ⟨hd, by omega⟩
        rw [if_neg hcond]
      | succ j =>
        rw [if_neg h]
        simp only [List.get?_cons_succ]
        rw [ih d j]
        rcases hx : cs.get? j with _ | x
        · rfl
        · simp only [Option.map_some']
          congr 1
          by_cases hd0 : d = 0
          · subst hd0
            rw [if_neg (by rintro ⟨_, hlt⟩; omega), if_neg (by rintro ⟨_, hlt⟩; omega)]
          · have hdc : is_ascii_digit c = false := by
              cases hb : is_ascii_digit c
              · rfl
              · exact absurd ⟨hb, hd0⟩ h
            have hcount : (((c :: cs).take (j + 1)).filter is_ascii_digit).length
                = ((cs.take j).filter is_ascii_digit).length := by
              simp [List.take_succ_cons, List.filter_cons, hdc]
            rw [hcount]

lemma reverse_take (l : List Char) (k : Nat) (hk : k ≤ l.length) :
    l.reverse.take k = (l.drop (l.length - k)).reverse := by
  conv_lhs => rw [← List.take_append_drop (l.length - k) l]
  rw [List.reverse_append, List.take_append_eq_append_take]
  have hlen : (l.drop (l.length - k)).reverse.length = k := by
    simp [List.length_reverse, List.length_drop]
    omega
  rw [List.take_of_length_le (Nat.le_of_eq hlen), hlen, Nat.sub_self, List.take_zero,
    List.append_nil]

lemma generate_homocodic_preliminary_code_eq (l : List Char) (d : Nat) :
    generate_homocodic_preliminary_code l d
      = some (if d = 0 then l else (substF l.reverse d).reverse) := by
  by_cases h : d = 0 <;>
    simp [generate_homocodic_preliminary_code, h, homocodic_subst_eq]

lemma gen_prelim_zero (l : List Char) :
    generate_homocodic_preliminary_code l 0 = some l := by
  rw [generate_homocodic_preliminary_code_eq, if_pos rfl]

lemma some_bind_eq {α β : Type} (a : α) (f : α → Option β) :
    (do let x ← some a; f x : Option β) = f a := rfl

lemma none_bind_eq {α β : Type} (f : α → Option β) :
    (do let x ← (none : Option α); f x : Option β) = none := rfl

lemma enumFrom_filter_ne (k : Nat) (l : List Char) : ∀ n,
    ((List.enumFrom n l).filter (fun p => p.1 != k)).map Prod.snd
      = if k < n then l else l.take (k - n) ++ l.drop (k - n + 1) := by
  induction l with
  | nil => intro n; split <;> simp
  | cons c cs ih =>
    intro n
    rw [List.enumFrom_cons, List.filter_cons]
    rcases Nat.lt_trichotomy k n with h | h | h
    · have hb : (n != k) = true := by simp [bne_iff_ne]; omega
      rw [if_pos h]
      simp only [hb, if_true, List.map_cons, ih (n + 1), if_pos (by omega : k < n + 1)]
    · subst h
      have hb : (k != k) = false := by simp
      simp only [hb, Bool.false_eq_true, if_false, ih (k + 1),
        if_pos (by omega : k < k + 1), if_neg (by omega : ¬ k < k), Nat.sub_self,
        List.take_zero, List.nil_append, Nat.zero_add, List.drop_succ_cons,
        List.drop_zero]
    · have hb : (n != k) = true := by simp [bne_iff_ne]; omega
      rw [if_neg (by omega : ¬ k < n), show k - n = (k - (n + 1)) + 1 by omega,
        List.take_succ_cons, List.drop_succ_cons]
      simp [hb, ih (n + 1), if_neg (by omega : ¬ k < n + 1), List.cons_append]

lemma strip_check_eq (code : List Char) :
    strip_check code = code.take 15 ++ code.drop 16 := by
  have h := enumFrom_filter_ne 15 code 0
  simpa [strip_check, List.enum] using h

lemma substF_zero : ∀ l : List Char, substF l 0 = l := by
  intro l
  induction l with
  | nil => rfl
  | cons c cs ih =>
    rw [substF, if_neg (by rintro ⟨_, h⟩; exact h rfl), ih]

lemma substF_saturate : ∀ (l : List Char) (d1 d2 : Nat),
    (l.filter is_ascii_digit).length ≤ d1 → (l.filter is_ascii_digit).length ≤ d2 →
    substF l d1 = substF l d2 := by
  intro l
  induction l with
  | nil => intros; rfl
  | cons c cs ih =>
    intro d1 d2 h1 h2
    rw [substF, substF]
    cases hd : is_ascii_digit c
    · rw [if_neg (by simp [hd]), if_neg (by simp [hd])]
      simp only [List.filter_cons, hd, if_neg] at h1 h2
      rw [ih d1 d2 (by simpa using h1) (by simpa using h2)]
    · have hl1 : (cs.filter is_ascii_digit).length + 1 ≤ d1 := by
        simpa [List.filter_cons, hd] using h1
      have hl2 : (cs.filter is_ascii_digit).length + 1 ≤ d2 := by
        simpa [List.filter_cons, hd] using h2
      rw [if_pos ⟨rfl, by omega⟩, if_pos ⟨rfl, by omega⟩,
        ih (d1 - 1) (d2 - 1) (by omega) (by omega)]

lemma strip_check_eq_take (code : List Char) (h16 : code.length = 16) :
    strip_check code = code.take 15 := by
  rw [strip_check_eq, List.drop_eq_nil_of_le (by omega), List.append_nil]

/-! ## Claim C10 -/

/-- C10: for every payload and depth, `generate_homocodic_preliminary_code`
returns a string of the same length in which every non-digit position is
unchanged and a digit position is replaced by its homocodic letter exactly
when fewer than `depth` digits lie to its right. -/
theorem homocodic_preliminary_frame (l : List Char) (depth : Nat) :
    ∃ s, generate_homocodic_preliminary_code l depth = some s ∧
      s.length = l.length ∧
      ∀ i, i < l.length →
        s.get? i = (l.get? i).map (fun c =>
          if is_ascii_digit c ∧ ((l.drop (i + 1)).filter is_ascii_digit).length < depth
          then claimHomocodicLetter c else c) := by
  rw [generate_homocodic_preliminary_code_eq]
  by_cases h0 : depth = 0
  · subst h0
    refine ⟨l, by rw [if_pos rfl], rfl, ?_⟩
    intro i hi
    rcases hx : l.get? i with _ | x
    · rfl
    · simp only [Option.map_some']
      rw [if_neg (by rintro ⟨_, hlt⟩; omega)]
  · rw [if_neg h0]
    refine ⟨(substF l.reverse depth).reverse, rfl, ?_, ?_⟩
    · rw [List.length_reverse, substF_length, List.length_reverse]
    · intro i hi
      have hn : (substF l.reverse depth).length = l.length := by
        rw [substF_length, List.length_reverse]
      have hi' : i < (substF l.reverse depth).length := by omega
      rw [List.get?_reverse hi', hn, substF_get?]
      have hj : l.length - 1 - i < l.length := by omega
      have hrev : l.reverse.get? (l.length - 1 - i) = l.get? i := by
        rw [List.get?_reverse (by omega : l.length - 1 - i < l.length)]
        congr 1
        omega
      have htake : ((l.reverse.take (l.length - 1 - i)).filter is_ascii_digit).length
          = ((l.drop (i + 1)).filter is_ascii_digit).length := by
        rw [reverse_take l (l.length - 1 - i) (by omega), List.filter_reverse,
          List.length_reverse,
          show l.length - (l.length - 1 - i) = i + 1 by omega]
      simp only [hrev, htake]

/-- Witness for C10 on ABC123 at depth 2: the digit at index 4 ('2', with one
digit to its right) is substituted to 'N'. -/
theorem homocodic_preliminary_frame_witness :
    ∃ s, generate_homocodic_preliminary_code ("ABC123".toList) 2 = some s ∧
      s.get? 4 = some 'N' := by
  obtain ⟨s, hs, _, hget⟩ := homocodic_preliminary_frame ("ABC123".toList) 2
  refine ⟨s, hs, ?_⟩
  rw [hget 4 (by decide)]
  decide

/-! ## Claim C2 -/

/-- C2 counterexample: a 16-character code whose last character is not the
checksum of its first 15 is not returned unchanged at depth 0. -/
theorem homocodic_depth_zero_counterexample :
    generate_homocodic_from_code ("0000000000000000".toList) 0
      ≠ some ("0000000000000000".toList) := by decide

/-- C2 amended: for every 16-character code whose 16th character is the control
character of its first 15, `generate_homocodic_from_code` at depth 0 returns
exactly the input. -/
theorem homocodic_depth_zero_identity (code : List Char) (h16 : code.length = 16)
    (hchk : get_control_character (code.take 15) = code.get? 15) :
    generate_homocodic_from_code code 0 = some code := by
  have hs : strip_check code = code.take 15 := strip_check_eq_take code h16
  obtain ⟨c, hc⟩ : ∃ c, code.get? 15 = some c := by
    rw [List.get?_eq_get (by omega : 15 < code.length)]
    exact ⟨_, rfl⟩
  have hd : code.drop 15 = [c] := by
    have hlen : (code.drop 15).length = 1 := by simp [List.length_drop]; omega
    obtain ⟨a, ha⟩ := List.length_eq_one.mp hlen
    have hget : (code.drop 15).get? 0 = code.get? 15 := by
      rw [List.get?_eq_getElem?, List.get?_eq_getElem?, List.getElem?_drop]
    rw [ha, hc] at hget
    simp only [List.get?_cons_zero, Option.some.injEq] at hget
    rw [ha, hget]
  have hcode : code.take 15 ++ [c] = code := by
    conv_rhs => rw [← List.take_append_drop 15 code]
    rw [hd]
  simp only [generate_homocodic_from_code, hs, gen_prelim_zero, some_bind_eq]
  rw [hchk, hc]
  simp only [some_bind_eq, hcode]

/-- Witness for the amended C2 on the valid code RSSMRA80D25H501P. -/
theorem homocodic_depth_zero_identity_witness :
    generate_homocodic_from_code ("RSSMRA80D25H501P".toList) 0
      = some ("RSSMRA80D25H501P".toList) :=
  homocodic_depth_zero_identity _ (by decide) (by decide)

/-! ## Claim C3 -/

/-- C3: `generate_homocodic_from_code` performs no length validation: the
4-character input AAAA is not rejected; it is transformed and returned as the
5-character string AAAAC. -/
theorem homocodic_accepts_malformed_input :
    generate_homocodic_from_code ("AAAA".toList) 0 = some ("AAAAC".toList) := by decide

/-! ## Claim C6 -/

/-- C6: for a 16-character code with d digits in its 15-character payload, every
depth k ≥ d produces the same output as depth d. -/
theorem homocodic_depth_saturation (code : List Char) (h16 : code.length = 16) (k : Nat)
    (hk : ((code.take 15).filter is_ascii_digit).length ≤ k) :
    generate_homocodic_from_code code k
      = generate_homocodic_from_code code (((code.take 15).filter is_ascii_digit).length) := by
  have hsc : strip_check code = code.take 15 := strip_check_eq_take code h16
  set p := code.take 15 with hp
  set d := (p.filter is_ascii_digit).length with hdd
  have hrev : (p.reverse.filter is_ascii_digit).length = d := by
    rw [List.filter_reverse, List.length_reverse]
  suffices hpre : generate_homocodic_preliminary_code p k
      = generate_homocodic_preliminary_code p d by
    simp only [generate_homocodic_from_code, hsc, hpre]
  rw [generate_homocodic_preliminary_code_eq, generate_homocodic_preliminary_code_eq]
  by_cases hk0 : k = 0
  · have hd0 : d = 0 := by omega
    rw [hk0, hd0]
  · by_cases hd0 : d = 0
    · rw [if_neg hk0, if_pos hd0,
        substF_saturate p.reverse k 0 (by omega) (by omega), substF_zero,
        List.reverse_reverse]
    · rw [if_neg hk0, if_neg hd0,
        substF_saturate p.reverse k d (by omega) (by omega)]

/-- Witness for C6: the valid code RSSMRA80D25H501P (6 payload digits) at depth 20. -/
theorem homocodic_depth_saturation_witness :
    generate_homocodic_from_code ("RSSMRA80D25H501P".toList) 20
      = generate_homocodic_from_code ("RSSMRA80D25H501P".toList)
          (((("RSSMRA80D25H501P".toList).take 15).filter is_ascii_digit).length) :=
  homocodic_depth_saturation _ (by decide) 20 (by decide)

/-! ## Claim C9 -/

/-- C9: every string produced by `generate_homocodic_from_code` on a 16-character
input has length 16 and carries, as its 16th character, the control character
freshly computed over its first 15 characters. -/
theorem homocodic_checksum_recomputed (code : List Char) (depth : Nat) (s : List Char)
    (h16 : code.length = 16) (hs : generate_homocodic_from_code code depth = some s) :
    s.length = 16 ∧ get_control_character (s.take 15) = s.get? 15 := by
  have hsc : strip_check code = code.take 15 := strip_check_eq_take code h16
  have hplen : (code.take 15).length = 15 := by
    rw [List.length_take]
    omega
  obtain ⟨P, hP⟩ : ∃ P, generate_homocodic_preliminary_code (code.take 15) depth = some P :=
    ⟨_, generate_homocodic_preliminary_code_eq _ depth⟩
  have hPlen : P.length = 15 := by
    rw [generate_homocodic_preliminary_code_eq] at hP
    injection hP with h
    subst h
    by_cases h0 : depth = 0
    · rw [if_pos h0, hplen]
    · rw [if_neg h0, List.length_reverse, substF_length, List.length_reverse, hplen]
  simp only [generate_homocodic_from_code, hsc, hP, some_bind_eq] at hs
  rcases hchk : get_control_character P with _ | chk
  · rw [hchk, none_bind_eq] at hs
    exact absurd hs (by simp)
  · rw [hchk] at hs
    simp only [some_bind_eq, Option.some.injEq] at hs
    subst hs
    refine ⟨by simp [hPlen], ?_⟩
    rw [List.take_left' hPlen, ← hPlen, List.get?_concat_length]
    exact hchk

/-- Witness for C9 on the code of all zeroes at depth 3. -/
theorem homocodic_checksum_recomputed_witness :
    ("000000000000LLLZ".toList).length = 16 ∧
      get_control_character (("000000000000LLLZ".toList).take 15)
        = ("000000000000LLLZ".toList).get? 15 :=
  homocodic_checksum_recomputed ("0000000000000000".toList) 3 _ (by decide) (by decide)

/-! ## Name encoders: helper lemmas -/

lemma chunks3_head (l : List Char) (h : l ≠ []) :
    (chunks3 l).head? = some (l.take 3) := by
  rcases l with _ | ⟨a, _ | ⟨b, _ | ⟨c, rest⟩⟩⟩
  · exact absurd rfl h
  · rfl
  · rfl
  · rfl

lemma chunks3_head?_eq (l f : List Char) (h : (chunks3 l).head? = some f) :
    f = l.take 3 := by
  rcases l with _ | ⟨a, _ | ⟨b, _ | ⟨c, rest⟩⟩⟩
  · simp [chunks3] at h
  · simp only [chunks3, List.head?_cons, Option.some.injEq] at h
    subst h
    rfl
  · simp only [chunks3, List.head?_cons, Option.some.injEq] at h
    subst h
    rfl
  · simp only [chunks3, List.head?_cons, Option.some.injEq] at h
    subst h
    rfl

lemma filter_consonant_vowel_length (l : List Char) :
    (l.filter is_consonant).length + (l.filter is_vowel).length = l.length := by
  induction l with
  | nil => rfl
  | cons c cs ih =>
    simp only [List.filter_cons]
    cases hv : is_vowel c
    · have hc : is_consonant c = true := by simp [is_consonant, hv]
      simp [hc, hv]
      omega
    · have hc : is_consonant c = false := by simp [is_consonant, hv]
      simp [hc, hv]
      omega

lemma filters_append_ne (s : List Char) (h : s ≠ []) :
    s.filter is_consonant ++ s.filter is_vowel ≠ [] := by
  intro hc
  apply h
  have hlen := filter_consonant_vowel_length s
  have h0 := congrArg List.length hc
  simp only [List.length_append, List.length_nil] at h0
  exact List.length_eq_zero.mp (by omega)

lemma pad_x3_length (l : List Char) (h : l.length ≤ 3) : (pad_x3 l).length = 3 := by
  simp [pad_x3]
  omega

lemma extract_surname_isSome (s : List Char) (h : s ≠ []) :
    ∃ v, extract_surname_letters s = some v := by
  simp only [extract_surname_letters, chunks3_head _ (filters_append_ne s h),
    some_bind_eq]
  exact ⟨_, rfl⟩

lemma extract_name_isSome (s : List Char) (h : s ≠ []) :
    ∃ v, extract_name_letters s = some v := by
  by_cases hc : (s.filter is_consonant).length ≤ 3
  · simp only [extract_name_letters, if_pos hc,
      chunks3_head _ (filters_append_ne s h), some_bind_eq]
    exact ⟨_, rfl⟩
  · simp only [extract_name_letters, if_neg hc]
    rw [List.get?_eq_get (by omega : 0 < (s.filter is_consonant).length),
      List.get?_eq_get (by omega : 2 < (s.filter is_consonant).length),
      List.get?_eq_get (by omega : 3 < (s.filter is_consonant).length)]
    simp only [some_bind_eq]
    exact ⟨_, rfl⟩

lemma extract_surname_length (s v : List Char) (h : extract_surname_letters s = some v) :
    v.length = 3 := by
  simp only [extract_surname_letters] at h
  rcases hh : (chunks3 (s.filter is_consonant ++ s.filter is_vowel)).head? with _ | first
  · rw [hh, none_bind_eq] at h
    exact absurd h (by simp)
  · rw [hh, some_bind_eq] at h
    have hv : v = (pad_x3 first).map to_ascii_uppercase := (Option.some.inj h).symm
    have h3 : first.length ≤ 3 := by
      rw [chunks3_head?_eq _ _ hh]
      simp [List.length_take]
    rw [hv, List.length_map]
    exact pad_x3_length first h3

lemma extract_name_length (s v : List Char) (h : extract_name_letters s = some v) :
    v.length = 3 := by
  simp only [extract_name_letters] at h
  by_cases hc : (s.filter is_consonant).length ≤ 3
  · rw [if_pos hc] at h
    rcases hh : (chunks3 (s.filter is_consonant ++ s.filter is_vowel)).head? with _ | first
    · rw [hh, none_bind_eq] at h
      exact absurd h (by simp)
    · rw [hh, some_bind_eq] at h
      have hv : v = (pad_x3 first).map to_ascii_uppercase := (Option.some.inj h).symm
      have h3 : first.length ≤ 3 := by
        rw [chunks3_head?_eq _ _ hh]
        simp [List.length_take]
      rw [hv, List.length_map]
      exact pad_x3_length first h3
  · rw [if_neg hc] at h
    rw [List.get?_eq_get (by omega : 0 < (s.filter is_consonant).length),
      List.get?_eq_get (by omega : 2 < (s.filter is_consonant).length),
      List.get?_eq_get (by omega : 3 < (s.filter is_consonant).length)] at h
    simp only [some_bind_eq] at h
    have hv : v = _ := (Option.some.inj h).symm
    rw [hv]
    rfl

/-! ## Claim C4 -/

/-- C4: a name with strictly more than 3 consonant-classified characters is
encoded as its consonants at 0-based consonant positions 0, 2 and 3, uppercased. -/
theorem name_long_rule (name : List Char) (h : 3 < (name.filter is_consonant).length) :
    extract_name_letters name = some
      ([(name.filter is_consonant).get ⟨0, by omega⟩,
        (name.filter is_consonant).get ⟨2, by omega⟩,
        (name.filter is_consonant).get ⟨3, by omega⟩].map to_ascii_uppercase) := by
  simp only [extract_name_letters, if_neg (by omega :
    ¬ (name.filter is_consonant).length ≤ 3)]
  rw [List.get?_eq_get (by omega : 0 < (name.filter is_consonant).length),
    List.get?_eq_get (by omega : 2 < (name.filter is_consonant).length),
    List.get?_eq_get (by omega : 3 < (name.filter is_consonant).length)]
  simp only [some_bind_eq]

/-- Witness for C4 on ROBERTO (consonants R,B,R,T): code RRT. -/
theorem name_long_rule_witness :
    extract_name_letters ("ROBERTO".toList) = some ("RRT".toList) := by
  rw [name_long_rule ("ROBERTO".toList) (by decide)]
  decide

/-! ## Claim C5 -/

/-- C5 counterexample: on the empty surname the encoder does not return the
X-padded code the claim describes for every input; it fails. -/
theorem surname_encoder_empty_counterexample :
    extract_surname_letters [] ≠ some (claimSurnameCode []) := by decide

/-- C5 amended: for every non-empty surname the encoder returns the uppercased
3-character code of C5 (consonants, then vowels, first 3, X-padded). -/
theorem surname_encoder_claim (surname : List Char) (h : surname ≠ []) :
    extract_surname_letters surname = some (claimSurnameCode surname)
      ∧ (claimSurnameCode surname).length = 3 := by
  constructor
  · simp only [extract_surname_letters,
      chunks3_head _ (filters_append_ne surname h), some_bind_eq]
    rfl
  · simp [claimSurnameCode, List.length_append, List.length_take]

/-- Witness for the amended C5 on surname Rossi (code RSS) and on the short
surname Fo (code FOX). -/
theorem surname_encoder_claim_witness :
    (extract_surname_letters ("Fo".toList) = some (claimSurnameCode ("Fo".toList))
        ∧ (claimSurnameCode ("Fo".toList)).length = 3)
      ∧ claimSurnameCode ("Fo".toList) = "FOX".toList :=
  ⟨surname_encoder_claim ("Fo".toList) (by decide), by decide⟩

/-! ## Claim C8 -/

/-- C8 counterexample: the digit-only input 123 contains no letter, yet the name
encoder does not fail: every digit is classified as a consonant and the encoder
returns 123. -/
theorem name_encoder_digits_counterexample :
    extract_name_letters ("123".toList) = some ("123".toList) := by decide

/-- C8 amended: the name and surname encoders fail exactly on the empty input;
every non-empty input, even one with no letters at all, is encoded. -/
theorem encoders_fail_iff_empty (s : List Char) :
    (extract_name_letters s = none ↔ s = []) ∧
      (extract_surname_letters s = none ↔ s = []) := by
  constructor
  · constructor
    · intro hn
      by_contra hne
      obtain ⟨v, hv⟩ := extract_name_isSome s hne
      rw [hv] at hn
      exact Option.noConfusion hn
    · rintro rfl
      rfl
  · constructor
    · intro hn
      by_contra hne
      obtain ⟨v, hv⟩ := extract_surname_isSome s hne
      rw [hv] at hn
      exact Option.noConfusion hn
    · rintro rfl
      rfl

/-! ## CodeGenerator: helper lemmas -/

lemma nat_to_string_core_small (fuel n : Nat) (hn : n < 10) (hf : 1 ≤ fuel) :
    nat_to_string_core fuel n = [digitChar n] := by
  match fuel with
  | 0 => omega
  | f + 1 => rw [nat_to_string_core, if_pos hn]

lemma nat_to_string_core_len2 (fuel n : Nat) (h1 : 10 ≤ n) (h2 : n < 100)
    (hf : 2 ≤ fuel) : (nat_to_string_core fuel n).length = 2 := by
  match fuel with
  | 0 => omega
  | f + 1 =>
    rw [nat_to_string_core, if_neg (by omega),
      nat_to_string_core_small f (n / 10) (by omega) (by omega)]
    rfl

lemma nat_to_string_core_len3 (fuel n : Nat) (h1 : 100 ≤ n) (h2 : n < 1000)
    (hf : 3 ≤ fuel) : (nat_to_string_core fuel n).length = 3 := by
  match fuel with
  | 0 => omega
  | f + 1 =>
    rw [nat_to_string_core, if_neg (by omega)]
    rw [List.length_append, nat_to_string_core_len2 f (n / 10) (by omega) (by omega)
      (by omega)]
    rfl

lemma nat_to_string_core_len4 (fuel n : Nat) (h1 : 1000 ≤ n) (h2 : n < 10000)
    (hf : 4 ≤ fuel) : (nat_to_string_core fuel n).length = 4 := by
  match fuel with
  | 0 => omega
  | f + 1 =>
    rw [nat_to_string_core, if_neg (by omega)]
    rw [List.length_append, nat_to_string_core_len3 f (n / 10) (by omega) (by omega)
      (by omega)]
    rfl

lemma nat_to_string_length_le2 (n : Nat) (h : n < 100) :
    (nat_to_string n).length ≤ 2 := by
  rw [nat_to_string]
  by_cases h10 : n < 10
  · rw [nat_to_string_core_small (n + 1) n h10 (by omega)]
    simp
  · rw [nat_to_string_core_len2 (n + 1) n (by omega) h (by omega)]

lemma int_to_string_year (y : Int) (h1 : 1000 ≤ y) (h2 : y ≤ 9999) :
    (int_to_string y).length = 4 := by
  rw [int_to_string, if_neg (by omega)]
  rw [nat_to_string]
  exact nat_to_string_core_len4 _ y.natAbs (by omega) (by omega) (by omega)

lemma get_year_length (y v : List Char) (h : get_year y = some v) : v.length = 2 := by
  rw [get_year] at h
  by_cases h4 : y.length = 4
  · rw [if_pos h4] at h
    rw [← Option.some.inj h, List.length_take, List.length_drop, h4]
    omega
  · rw [if_neg h4] at h
    exact absurd h (by simp)

lemma pad_zero2_length (l : List Char) (h : l.length ≤ 2) :
    (pad_zero2 l).length = 2 := by
  simp [pad_zero2]
  omega

lemma get_day_lt (day : Nat) (sex : Sex) (h : day ≤ 31) : get_day day sex < 100 := by
  cases sex <;> simp [get_day] <;> omega

/-! ## Claim C7 -/

/-- C7: the location fragment (characters 11 to 14) of a code produced by
`generate_code` is the city's code when the nation's code is the sentinel 0000,
and the nation's code otherwise. -/
theorem location_fragment_claim (name surname : List Char) (sex : Sex)
    (birth_nation : Nation) (birth_city : City) (birth_date : NaiveDate)
    (out : List Char)
    (hnat : birth_nation.nation_code.length = 4)
    (hcity : birth_city.city_code.length = 4)
    (hday : birth_date.day ≤ 31)
    (hout : generate_code name surname sex birth_nation birth_city birth_date = some out) :
    (out.drop 11).take 4
      = (if birth_nation.nation_code = ['0', '0', '0', '0'] then birth_city.city_code
         else birth_nation.nation_code) := by
  simp only [generate_code] at hout
  rcases hn : extract_name_letters name with _ | nc
  · rw [hn, none_bind_eq] at hout
    exact absurd hout (by simp)
  rw [hn, some_bind_eq] at hout
  rcases hsn : extract_surname_letters surname with _ | sc
  · rw [hsn, none_bind_eq] at hout
    exact absurd hout (by simp)
  rw [hsn, some_bind_eq] at hout
  rcases hy : get_year (int_to_string birth_date.year) with _ | yc
  · rw [hy, none_bind_eq] at hout
    exact absurd hout (by simp)
  rw [hy, some_bind_eq] at hout
  rcases hm : get_month_letter birth_date.month with _ | mc
  · rw [hm, none_bind_eq] at hout
    exact absurd hout (by simp)
  rw [hm, some_bind_eq] at hout
  rcases hg : get_control_character (sc ++ nc ++ yc ++ [mc] ++
      pad_zero2 (nat_to_string (get_day birth_date.day sex)) ++
      (if birth_nation.nation_code = ['0', '0', '0', '0'] then birth_city.city_code
       else birth_nation.nation_code)) with _ | chk
  · rw [hg, none_bind_eq] at hout
    exact absurd hout (by simp)
  · rw [hg, some_bind_eq] at hout
    have hdaylen : (pad_zero2 (nat_to_string (get_day birth_date.day sex))).length = 2 :=
      pad_zero2_length _ (nat_to_string_length_le2 _ (get_day_lt birth_date.day sex hday))
    have hpre : (sc ++ nc ++ yc ++ [mc] ++
        pad_zero2 (nat_to_string (get_day birth_date.day sex))).length = 11 := by
      simp only [List.length_append, extract_surname_length surname sc hsn,
        extract_name_length name nc hn, get_year_length _ yc hy,
        List.length_cons, List.length_nil, hdaylen]
    have hL : (if birth_nation.nation_code = ['0', '0', '0', '0'] then birth_city.city_code
        else birth_nation.nation_code).length = 4 := by
      by_cases hcond : birth_nation.nation_code = ['0', '0', '0', '0']
      · rw [if_pos hcond]
        exact hcity
      · rw [if_neg hcond]
        exact hnat
    rw [← Option.some.inj hout, List.append_assoc, List.drop_left' hpre,
      List.take_left' hL]

/-- Witness for C7: Mario Rossi, male, born 1980-04-25, nation sentinel 0000 and
city H501 produce the code RSSMRA80D25H501P, whose location fragment is H501. -/
theorem location_fragment_claim_witness :
    ((("RSSMRA80D25H501P".toList).drop 11).take 4)
      = (if (['0', '0', '0', '0'] : List Char) = ['0', '0', '0', '0']
         then ("H501".toList) else ['0', '0', '0', '0']) :=
  location_fragment_claim ("Mario".toList) ("Rossi".toList) Sex.M
    ⟨0, [], ['0', '0', '0', '0']⟩ ⟨0, [], "H501".toList⟩ ⟨1980, 4, 25⟩ _
    (by decide) (by decide) (by decide) (by decide)

end CodiceFiscale
